import Mathlib

/-!
Verification of the extrusion core of osgEarth's ExtrudeGeometryFilter
(src/osgEarthFeatures/ExtrudeGeometryFilter.cpp).

The embedding models the active (non-disabled) implementation of
ExtrudeGeometryFilter::extrudeGeometry in its non-geocentric branch
(makeECEF == false), together with the anonymous-namespace helper
getApparentRotation and the control flow of ExtrudeGeometryFilter::push.

Coordinates are rational (exact versions of the C++ doubles); values that
the source obtains from sqrt (vector length used for arc length and for
the repeat-mode texture segment height) live in the reals.
-/

/-- Three-dimensional point, the embedding of osg::Vec3d. -/
structure Vec3 where
  x : ℚ
  y : ℚ
  z : ℚ
deriving DecidableEq, Repr

/-- Squared length of the difference b - a, the embedding of
(b - a).length2(). -/
def len2 (a b : Vec3) : ℚ :=
  (b.x - a.x) ^ 2 + (b.y - a.y) ^ 2 + (b.z - a.z) ^ 2

/-- Euclidean distance between two points, the embedding of
(b - a).length(). -/
noncomputable def dist3 (a b : Vec3) : ℝ :=
  Real.sqrt ((len2 a b : ℚ) : ℝ)

/-- Largest finite IEEE double, the value of DBL_MAX used by the source to
initialize the pass-1 accumulators. -/
def DBL_MAX : ℚ := 2 ^ 1024 - 2 ^ 971

/-- Embedding of osg::round: round half away from zero
(v &gt;= 0 ? floor(v+0.5) : ceil(v-0.5)). -/
def osgRound (v : ℚ) : ℚ :=
  if 0 ≤ v then ((⌊v + 1 / 2⌋ : ℤ) : ℚ) else ((⌈v - 1 / 2⌉ : ℤ) : ℚ)

/-- Mathematical atan2 on exact reals, the embedding of ::atan2 as used by
getApparentRotation. -/
noncomputable def atan2 (y x : ℝ) : ℝ :=
  if 0 < x then Real.arctan (y / x)
  else if x < 0 then
    (if 0 ≤ y then Real.arctan (y / x) + Real.pi
     else Real.arctan (y / x) - Real.pi)
  else if 0 < y then Real.pi / 2
  else if y < 0 then -(Real.pi / 2)
  else 0

/-- Modelled from the spec: the edge list produced by
ConstSegmentIterator(geom, true) (the iterator class itself is not under
src/): every segment between consecutive points, including the closing
edge back to the first point. -/
def segmentsOf (pts : List Vec3) : List (Vec3 × Vec3) :=
  pts.zip (pts.rotate 1)

/-- One step of the scan loop in getApparentRotation: state is the retained
segment n together with maxLen2; a segment is retained only when its
squared length strictly exceeds the maximum seen so far. -/
def rotScanStep (st : (Vec3 × Vec3) × ℚ) (s : Vec3 × Vec3) : (Vec3 × Vec3) × ℚ :=
  if len2 s.1 s.2 > st.2 then (s, len2 s.1 s.2) else st

/-- Retained longest segment of getApparentRotation: the fold of the scan
loop starting from a default-constructed Segment (two zero vectors) and
maxLen2 = 0. -/
def retainedSeg (pts : List Vec3) : Vec3 × Vec3 :=
  ((segmentsOf pts).foldl rotScanStep ((⟨0, 0, 0⟩, ⟨0, 0, 0⟩), 0)).1

/-- Embedding of getApparentRotation: orient the retained segment by the
ternary n.first.x() &lt; n.second.x() and return atan2 of the oriented
difference. -/
noncomputable def getApparentRotation (pts : List Vec3) : ℝ :=
  let n := retainedSeg pts
  let p1 := if n.1.x < n.2.x then n.1 else n.2
  let p2 := if n.1.x < n.2.x then n.2 else n.1
  atan2 ((p2.y : ℚ) - p1.y : ℚ) ((p2.x : ℚ) - p1.x : ℚ)

/-- Wall skin parameters consumed by extrudeGeometry: imageWidth,
imageHeight and the isTiled (repeat-Y) flag of a SkinResource. -/
structure SkinParams where
  texWidth : ℚ
  texHeight : ℚ
  repeatsY : Bool
deriving DecidableEq, Repr

/-- All points of all parts of the input shape, in iteration order of
ConstGeometryIterator. -/
def allPoints (parts : List (List Vec3)) : List Vec3 :=
  parts.flatten

/-- Pass-1 accumulation of targetLen: starting from -DBL_MAX, raise to
m_point.z() + height whenever that exceeds the accumulator. -/
def targetLenOf (parts : List (List Vec3)) (height : ℚ) : ℚ :=
  (allPoints parts).foldl
    (fun acc p => if p.z + height > acc then p.z + height else acc) (-DBL_MAX)

/-- Pass-1 accumulation of minLoc: starting from (DBL_MAX, DBL_MAX, DBL_MAX),
replace by any point of strictly smaller z. -/
def minLocOf (parts : List (List Vec3)) : Vec3 :=
  (allPoints parts).foldl
    (fun acc p => if p.z < acc.z then p else acc) ⟨DBL_MAX, DBL_MAX, DBL_MAX⟩

/-- Pass-1 accumulation of maxLoc (computed by the source but unused by the
active code after pass 1): starting from (0,0,0), replace by any point of
strictly larger z. -/
def maxLocOf (parts : List (List Vec3)) : Vec3 :=
  (allPoints parts).foldl
    (fun acc p => if p.z > acc.z then p else acc) ⟨0, 0, 0⟩

/-- Roof point for a base point: (x, y, targetLen) when flattening,
(x, y, z + height) otherwise.  targetLen and height are the values after
the height-offset subtraction. -/
def roofPtOf (flatten : Bool) (targetLen height : ℚ) (b : Vec3) : Vec3 :=
  if flatten then ⟨b.x, b.y, targetLen⟩ else ⟨b.x, b.y, b.z + height⟩

/-- Per-part wall vertices: for each point, the roof vertex followed by the
base vertex (positions wallVertPtr and wallVertPtr + 1). -/
def partWallVerts (flatten : Bool) (targetLen height : ℚ) (pts : List Vec3) : List Vec3 :=
  pts.flatMap (fun b => [roofPtOf flatten targetLen height b, b])

/-- All wall vertices: concatenation of the per-part wall vertices in part
order (wallVertPtr runs continuously across parts). -/
def wallVertsAll (flatten : Bool) (targetLen height : ℚ)
    (parts : List (List Vec3)) : List Vec3 :=
  (parts.map (partWallVerts flatten targetLen height)).flatten

/-- Per-part wall triangle indices.  partPtr is wallPartPtr (the index of
the part's first vertex), wvp the running wallVertPtr.  A non-final point
emits the two quad triangles; the final point emits the two closing
triangles back to partPtr for a polygon and nothing for a line. -/
def partWallIdx (isPoly : Bool) (partPtr : ℕ) : ℕ → List Vec3 → List ℕ
  | _, [] => []
  | wvp, [_] =>
      if isPoly then
        [wvp, wvp + 1, partPtr, wvp + 1, partPtr + 1, partPtr]
      else []
  | wvp, _ :: b :: rest =>
      [wvp, wvp + 1, wvp + 2, wvp + 1, wvp + 3, wvp + 2] ++
        partWallIdx isPoly partPtr (wvp + 2) (b :: rest)

/-- All wall primitive sets: one DrawElementsUInt per part, with the
wallVertPtr offset advancing by two per point across parts. -/
def wallIdxAll (isPoly : Bool) (parts : List (List Vec3)) : List (List ℕ) :=
  (parts.foldl
    (fun (acc : List (List ℕ) × ℕ) pts =>
      (acc.1 ++ [partWallIdx isPoly acc.2 acc.2 pts], acc.2 + 2 * pts.length))
    ([], 0)).1

/-- Divisor used to adjust the texture height: osg::round(maxHeight /
tex_height_m), replaced by 1 when it is exactly zero (the divide-by-zero
guard in the source). -/
def texHeightDiv (maxHeight texHeightM : ℚ) : ℚ :=
  let d := osgRound (maxHeight / texHeightM)
  if d = 0 then 1 else d

/-- Adjusted texture tile height tex_height_m_adj = maxHeight / div.  The
source computes this once per part from values that do not depend on the
part, so it is a single shape-level quantity. -/
def texHeightAdj (maxHeight texHeightM : ℚ) : ℚ :=
  maxHeight / texHeightDiv maxHeight texHeightM

/-- Vertical span maxHeight = targetLen - minLoc.z(), computed after the
height-offset subtraction (targetLen -= heightOffset). -/
def maxHeightOf (parts : List (List Vec3)) (height heightOffset : ℚ) : ℚ :=
  (targetLenOf parts height - heightOffset) - (minLocOf parts).z

/-- Texture-coordinate emission loop for one part.  prev is the previously
emitted roof vertex (none at the first point of the part, where the
arc-length increment is zero), partLen the accumulated arc length.  Each
point contributes the roof texcoord (partLen/tex_width_m, 0) and the base
texcoord (partLen/tex_width_m, h/tex_height_m_adj) with h the negated
segment height. -/
noncomputable def partTexAux (repeats : Bool) (texW adj : ℚ)
    (flatten : Bool) (targetLen height : ℚ) :
    Option Vec3 → ℝ → List Vec3 → List (ℝ × ℝ)
  | _, _, [] => []
  | prev, partLen, b :: rest =>
      let r := roofPtOf flatten targetLen height b
      let partLen' : ℝ :=
        match prev with
        | none => partLen
        | some pr => partLen + dist3 pr r
      let h : ℝ := if repeats then -(dist3 b r) else -((adj : ℚ) : ℝ)
      (partLen' / ((texW : ℚ) : ℝ), 0) ::
        (partLen' / ((texW : ℚ) : ℝ), h / ((adj : ℚ) : ℝ)) ::
          partTexAux repeats texW adj flatten targetLen height (some r) partLen' rest

/-- Texture coordinates of one part, starting with partLen = 0. -/
noncomputable def partTexcoords (repeats : Bool) (texW adj : ℚ)
    (flatten : Bool) (targetLen height : ℚ) (pts : List Vec3) : List (ℝ × ℝ) :=
  partTexAux repeats texW adj flatten targetLen height none 0 pts

/-- All wall texture coordinates (only produced when a wall skin is
present): concatenation of the per-part coordinate lists; partLen restarts
at zero for each part. -/
noncomputable def wallTexAll (repeats : Bool) (texW adj : ℚ)
    (flatten : Bool) (targetLen height : ℚ) (parts : List (List Vec3)) :
    List (ℝ × ℝ) :=
  (parts.map (partTexcoords repeats texW adj flatten targetLen height)).flatten

/-- All roof vertices (when a roof geometry is requested): one roof point
per input point, in part order. -/
def roofVertsAll (flatten : Bool) (targetLen height : ℚ)
    (parts : List (List Vec3)) : List Vec3 :=
  (parts.map (fun pts => pts.map (roofPtOf flatten targetLen height))).flatten

/-- Swap of two positions of a list, the embedding of std::swap on array
elements; out-of-range indices leave the list unchanged (never reached by
the source's loop). -/
def swapAt {α : Type} (l : List α) (i j : ℕ) : List α :=
  match l[i]?, l[j]? with
  | some a, some b => (l.set i b).set j a
  | _, _ => l

/-- Embedding of the base-vertex reversal loop exactly as written in the
source: for (int i = basePartPtr; i &lt; len/2; i++)
swap(baseVerts[i], baseVerts[basePartPtr + (len-1) - i]). -/
def reverseBaseLoop (basePartPtr len : ℕ) (l : List Vec3) : List Vec3 :=
  (List.range' basePartPtr (len / 2 - basePartPtr)).foldl
    (fun acc i => swapAt acc i (basePartPtr + (len - 1) - i)) l

/-- All base vertices: per part, append the original points (base points at
the original elevation) and then run the reversal loop with basePartPtr the
part's first index and len the part's point count. -/
def baseVertsAll (parts : List (List Vec3)) : List Vec3 :=
  parts.foldl
    (fun acc pts => reverseBaseLoop acc.length pts.length (acc ++ pts)) []

/-- Output of one extrudeGeometry call.  wallTexcoords is empty when no
wall skin is present; roofTexcoords and roofRotation are only populated
when both a roof geometry and a roof skin are present (matching the
allocation sites in the source). -/
structure ExtrudeOutput where
  wallVerts : List Vec3
  wallTexcoords : List (ℝ × ℝ)
  wallIndices : List (List ℕ)
  roofVerts : List Vec3
  roofTexcoords : List (ℝ × ℝ)
  roofRotation : ℝ
  baseVerts : List Vec3
  madeGeom : Bool

/-- Embedding of the active ExtrudeGeometryFilter::extrudeGeometry in the
non-geocentric branch (makeECEF == false).  The shape is a list of parts;
isPoly is whether the component type is TYPE_POLYGON.  Default texture
metrics without a skin are tex_width_m = tex_height_m = 1 and
tex_repeats_y = false.  Roof texture coordinates are allocated
default-initialized (one zero entry per point) and never written by the
source. -/
noncomputable def extrudeGeometry (parts : List (List Vec3)) (isPoly : Bool)
    (height heightOffset : ℚ) (flatten : Bool)
    (wallSkin : Option SkinParams) (roofRequested baseRequested roofSkin : Bool) :
    ExtrudeOutput :=
  let texW := match wallSkin with | some s => s.texWidth | none => 1
  let texH := match wallSkin with | some s => s.texHeight | none => 1
  let repeats := match wallSkin with | some s => s.repeatsY | none => false
  let targetLen := targetLenOf parts height - heightOffset
  let height' := height - heightOffset
  let maxHeight := maxHeightOf parts height heightOffset
  let adj := texHeightAdj maxHeight texH
  let pointCount := (allPoints parts).length
  { wallVerts := wallVertsAll flatten targetLen height' parts
    wallTexcoords :=
      match wallSkin with
      | some _ => wallTexAll repeats texW adj flatten targetLen height' parts
      | none => []
    wallIndices := wallIdxAll isPoly parts
    roofVerts :=
      if roofRequested then roofVertsAll flatten targetLen height' parts else []
    roofTexcoords :=
      if roofRequested && roofSkin then List.replicate pointCount ((0 : ℝ), (0 : ℝ))
      else []
    roofRotation :=
      if roofRequested && roofSkin then getApparentRotation (allPoints parts) else 0
    baseVerts := if baseRequested then baseVertsAll parts else []
    madeGeom := !(allPoints parts).isEmpty }

/-- Wall-segment quad indices for n segments starting at vertex wvp: for
each segment, two triangles over consecutive roof/base pairs. -/
def lineIdxFrom (wvp : ℕ) : ℕ → List ℕ
  | 0 => []
  | n + 1 =>
      [wvp, wvp + 1, wvp + 2, wvp + 1, wvp + 3, wvp + 2] ++ lineIdxFrom (wvp + 2) n

/-- Expected wall index list for a single-part LINE shape of N points:
quads for the N-1 segments and nothing else. -/
def lineWallIdx (N : ℕ) : List ℕ := lineIdxFrom 0 (N - 1)

/-- Expected wall index list for a single-part POLYGON shape of N points:
the N-1 segment quads followed by the two closing triangles connecting
vertices 2N-2 and 2N-1 back to 0 and 1. -/
def polygonWallIdx (N : ℕ) : List ℕ :=
  lineWallIdx N ++ [2 * N - 2, 2 * N - 1, 0, 2 * N - 1, 1, 0]

/-- Per-feature data consumed by ExtrudeGeometryFilter::process: the
feature's geometry parts, its component type, and the resolved extrusion
height and height offset (the expression/callback resolution itself is an
external collaborator). -/
structure FeatureModel where
  parts : List (List Vec3)
  isPoly : Bool
  height : ℚ
  offset : ℚ

/-- Insertion into the geode map _geodes: the first reference to a
rendering-state key creates its bucket, later drawables with the same key
are appended to the existing bucket. -/
noncomputable def upsertGeode (key : Option SkinParams) (g : ExtrudeOutput) :
    List (Option SkinParams × List ExtrudeOutput) →
      List (Option SkinParams × List ExtrudeOutput)
  | [] => [(key, [g])]
  | (k, gs) :: rest =>
      if k = key then (k, gs ++ [g]) :: rest
      else (k, gs) :: upsertGeode key g rest

/-- Embedding of the ExtrudeGeometryFilter::process loop: each feature is
extruded (rooflines only for polygons, base never requested by the default
pipeline); when geometry was made, the walls go to the geode keyed by the
wall state set (the wall skin, or the null key without one) and rooflines
always go to the null-key geode. -/
noncomputable def processFeatures (flatten : Bool) (wallSkin : Option SkinParams)
    (features : List FeatureModel) :
    List (Option SkinParams × List ExtrudeOutput) :=
  features.foldl
    (fun geodes f =>
      let O := extrudeGeometry f.parts f.isPoly f.height f.offset flatten
        wallSkin f.isPoly false false
      if O.madeGeom then
        let g1 := upsertGeode wallSkin O geodes
        if f.isPoly then upsertGeode none O g1 else g1
      else geodes) []

/-- Result of ExtrudeGeometryFilter::push: whether the missing-symbol
warning was logged, and the children of the returned group node (one per
geode bucket). -/
structure PushResult where
  warnedMissingSymbol : Bool
  groupChildren : List (Option SkinParams × List ExtrudeOutput)

/-- Embedding of ExtrudeGeometryFilter::push: when no extrusion symbol is
configured it logs a warning and returns a fresh empty Group; otherwise it
pushes every feature through the extruder and returns the delocalizing
group holding one child per geode (the consolidation and optimizer passes
rearrange drawables inside geodes but never add or remove geodes). -/
noncomputable def push (extrusionSymbolValid : Bool) (flatten : Bool)
    (wallSkin : Option SkinParams) (features : List FeatureModel) : PushResult :=
  if !extrusionSymbolValid then
    { warnedMissingSymbol := true, groupChildren := [] }
  else
    { warnedMissingSymbol := false,
      groupChildren := processFeatures flatten wallSkin features }

/-- Consecutive disjoint pairs of a list: element 2i paired with element
2i+1.  Applied to the wall vertex or texcoord arrays this recovers the
per-point (roof, base) pairs emitted by the extrusion loop. -/
def pairup {α : Type} : List α → List (α × α)
  | a :: b :: rest => (a, b) :: pairup rest
  | _ => []

lemma lineIdxFrom_length (wvp n : ℕ) : (lineIdxFrom wvp n).length = 6 * n := by
  induction n generalizing wvp with
  | zero => simp [lineIdxFrom]
  | succ k ih => simp [lineIdxFrom, ih]; omega

lemma partWallIdx_closedForm (isPoly : Bool) (pp : ℕ) :
    ∀ (pts : List Vec3) (wvp : ℕ), pts ≠ [] →
      partWallIdx isPoly pp wvp pts =
        lineIdxFrom wvp (pts.length - 1) ++
          (if isPoly then
              [wvp + 2 * (pts.length - 1), wvp + 2 * (pts.length - 1) + 1, pp,
               wvp + 2 * (pts.length - 1) + 1, pp + 1, pp]
           else []) := by
  intro pts
  induction pts with
  | nil => intro wvp h; exact absurd rfl h
  | cons a tail ih =>
      intro wvp _
      cases tail with
      | nil =>
          cases isPoly <;> simp [partWallIdx, lineIdxFrom]
      | cons b rest =>
          have hne : (b :: rest) ≠ [] := by simp
          have step :
              partWallIdx isPoly pp wvp (a :: b :: rest) =
                [wvp, wvp + 1, wvp + 2, wvp + 1, wvp + 3, wvp + 2] ++
                  partWallIdx isPoly pp (wvp + 2) (b :: rest) := rfl
          rw [step, ih (wvp + 2) hne]
          have hlen : (a :: b :: rest).length - 1 = (b :: rest).length := by simp
          have hlen2 : (b :: rest).length - 1 + 1 = (b :: rest).length := by simp
          rw [hlen]
          have hline :
              lineIdxFrom wvp (b :: rest).length =
                [wvp, wvp + 1, wvp + 2, wvp + 1, wvp + 3, wvp + 2] ++
                  lineIdxFrom (wvp + 2) ((b :: rest).length - 1) := by
            conv_lhs => rw [← hlen2]
            rfl
          rw [hline, List.append_assoc]
          congr 1
          cases isPoly with
          | false => simp
          | true =>
              simp only [if_true]
              have : wvp + 2 + 2 * ((b :: rest).length - 1) =
                  wvp + 2 * (b :: rest).length := by
                have : 1 ≤ (b :: rest).length := by simp
                omega
              rw [this]
  
lemma partWallVerts_length (f : Bool) (t h : ℚ) (pts : List Vec3) :
    (partWallVerts f t h pts).length = 2 * pts.length := by
  induction pts with
  | nil => simp [partWallVerts]
  | cons a tail ih =>
      simp only [partWallVerts, List.flatMap_cons] at ih ⊢
      simp [ih]; omega

lemma wallIdxAll_single (isPoly : Bool) (pts : List Vec3) :
    wallIdxAll isPoly [pts] = [partWallIdx isPoly 0 0 pts] := by
  simp [wallIdxAll]

lemma extrudeGeometry_wallIndices (parts : List (List Vec3)) (isPoly : Bool)
    (height heightOffset : ℚ) (flatten : Bool) (ws : Option SkinParams)
    (r b rs : Bool) :
    (extrudeGeometry parts isPoly height heightOffset flatten ws r b rs).wallIndices
      = wallIdxAll isPoly parts := rfl

lemma extrudeGeometry_wallVerts (parts : List (List Vec3)) (isPoly : Bool)
    (height heightOffset : ℚ) (flatten : Bool) (ws : Option SkinParams)
    (r b rs : Bool) :
    (extrudeGeometry parts isPoly height heightOffset flatten ws r b rs).wallVerts
      = wallVertsAll flatten (targetLenOf parts height - heightOffset)
          (height - heightOffset) parts := rfl

lemma wallVertsAll_single (f : Bool) (t h : ℚ) (pts : List Vec3) :
    wallVertsAll f t h [pts] = partWallVerts f t h pts := by
  simp [wallVertsAll]

lemma polygonWallIdx_eq (pts : List Vec3) (h1 : 1 ≤ pts.length) :
    partWallIdx true 0 0 pts = polygonWallIdx pts.length := by
  have hne : pts ≠ [] := by
    cases pts with
    | nil => simp at h1
    | cons a t => simp
  rw [partWallIdx_closedForm true 0 pts 0 hne]
  simp only [if_true, polygonWallIdx, lineWallIdx]
  congr 1
  have e1 : 0 + 2 * (pts.length - 1) = 2 * pts.length - 2 := by omega
  rw [e1]
  have e2 : 2 * pts.length - 2 + 1 = 2 * pts.length - 1 := by omega
  rw [e2]

lemma lineWallIdx_eq (pts : List Vec3) (h1 : 1 ≤ pts.length) :
    partWallIdx false 0 0 pts = lineWallIdx pts.length := by
  have hne : pts ≠ [] := by
    cases pts with
    | nil => simp at h1
    | cons a t => simp
  rw [partWallIdx_closedForm false 0 pts 0 hne]
  simp [lineWallIdx]

/-- C1: for a single-part POLYGON shape with N ≥ 3 points the wall mesh has
exactly 2N vertices and one index list of 6N indices (2N triangles) whose
final two (closing) triangles connect vertices 2N-2 and 2N-1 back to 0 and
1; for a single-part LINE shape with N ≥ 2 points it has 2N vertices and
6(N-1) indices (2(N-1) triangles), exactly the per-segment quads with no
wraparound triangles. -/
theorem wall_mesh_vertex_and_triangle_layout
    (pts : List Vec3) (height heightOffset : ℚ) (flatten : Bool)
    (ws : Option SkinParams) (r b rs : Bool) :
    (3 ≤ pts.length →
      ((extrudeGeometry [pts] true height heightOffset flatten ws r b rs).wallVerts.length
          = 2 * pts.length ∧
       (extrudeGeometry [pts] true height heightOffset flatten ws r b rs).wallIndices
          = [polygonWallIdx pts.length] ∧
       (polygonWallIdx pts.length).length = 6 * pts.length ∧
       (polygonWallIdx pts.length).drop (6 * (pts.length - 1))
          = [2 * pts.length - 2, 2 * pts.length - 1, 0,
             2 * pts.length - 1, 1, 0])) ∧
    (2 ≤ pts.length →
      ((extrudeGeometry [pts] false height heightOffset flatten ws r b rs).wallVerts.length
          = 2 * pts.length ∧
       (extrudeGeometry [pts] false height heightOffset flatten ws r b rs).wallIndices
          = [lineWallIdx pts.length] ∧
       (lineWallIdx pts.length).length = 6 * (pts.length - 1))) := by
  constructor
  · intro h3
    refine ⟨?_, ?_, ?_, ?_⟩
    · rw [extrudeGeometry_wallVerts, wallVertsAll_single, partWallVerts_length]
    · rw [extrudeGeometry_wallIndices, wallIdxAll_single,
        polygonWallIdx_eq pts (by omega)]
    · simp only [polygonWallIdx, lineWallIdx, List.length_append,
        lineIdxFrom_length]
      simp; omega
    · have hlen : (lineWallIdx pts.length).length = 6 * (pts.length - 1) := by
        simp [lineWallIdx, lineIdxFrom_length]
      rw [polygonWallIdx, ← hlen, List.drop_left]
  · intro h2
    refine ⟨?_, ?_, ?_⟩
    · rw [extrudeGeometry_wallVerts, wallVertsAll_single, partWallVerts_length]
    · rw [extrudeGeometry_wallIndices, wallIdxAll_single,
        lineWallIdx_eq pts (by omega)]
    · simp [lineWallIdx, lineIdxFrom_length]

/-- Witness for C1 at the triangle (0,0,0),(1,0,0),(1,1,0). -/
theorem wall_mesh_vertex_and_triangle_layout_witness :
    (extrudeGeometry [[⟨0, 0, 0⟩, ⟨1, 0, 0⟩, ⟨1, 1, 0⟩]] true 1 0 false
        none false false false).wallIndices = [polygonWallIdx 3] ∧
    (extrudeGeometry [[⟨0, 0, 0⟩, ⟨1, 0, 0⟩, ⟨1, 1, 0⟩]] false 1 0 false
        none false false false).wallIndices = [lineWallIdx 3] :=
  ⟨((wall_mesh_vertex_and_triangle_layout
      [⟨0, 0, 0⟩, ⟨1, 0, 0⟩, ⟨1, 1, 0⟩] 1 0 false none false false false).1
      (by decide)).2.1,
   ((wall_mesh_vertex_and_triangle_layout
      [⟨0, 0, 0⟩, ⟨1, 0, 0⟩, ⟨1, 1, 0⟩] 1 0 false none false false false).2
      (by decide)).2.1⟩

lemma zmax_step_eq_max (height acc : ℚ) (p : Vec3) :
    (if p.z + height > acc then p.z + height else acc) = max acc (p.z + height) := by
  rcases lt_or_le acc (p.z + height) with h | h
  · rw [if_pos h, max_eq_right h.le]
  · rw [if_neg (not_lt.mpr h), max_eq_left h]

lemma foldl_max_le (f : Vec3 → ℚ) :
    ∀ (l : List Vec3) (a : ℚ),
      a ≤ l.foldl (fun acc p => max acc (f p)) a ∧
      ∀ p ∈ l, f p ≤ l.foldl (fun acc p => max acc (f p)) a := by
  intro l
  induction l with
  | nil => intro a; simp
  | cons q t ih =>
      intro a
      have h := ih (max a (f q))
      constructor
      · exact le_trans (le_max_left a (f q)) h.1
      · intro p hp
        rcases List.mem_cons.mp hp with rfl | hp
        · exact le_trans (le_max_right a (f p)) h.1
        · exact h.2 p hp

lemma foldl_max_attained (f : Vec3 → ℚ) :
    ∀ (l : List Vec3) (a : ℚ),
      l.foldl (fun acc p => max acc (f p)) a = a ∨
        ∃ p ∈ l, l.foldl (fun acc p => max acc (f p)) a = f p := by
  intro l
  induction l with
  | nil => intro a; left; rfl
  | cons q t ih =>
      intro a
      rcases ih (max a (f q)) with h | ⟨p, hp, h⟩
      · rcases max_choice a (f q) with hm | hm
        · left; simpa [hm] using h
        · right; exact ⟨q, List.mem_cons_self q t, by simpa [hm] using h⟩
      · right; exact ⟨p, List.mem_cons_of_mem q hp, h⟩

lemma targetLenOf_eq_foldl_max (parts : List (List Vec3)) (height : ℚ) :
    targetLenOf parts height =
      (allPoints parts).foldl (fun acc p => max acc (p.z + height)) (-DBL_MAX) := by
  unfold targetLenOf
  congr 1
  funext acc p
  exact zmax_step_eq_max height acc p

lemma mem_roofVertsAll {v : Vec3} {f : Bool} {t h : ℚ} {parts : List (List Vec3)}
    (hv : v ∈ roofVertsAll f t h parts) :
    ∃ b ∈ allPoints parts, v = roofPtOf f t h b := by
  simp only [roofVertsAll, List.mem_flatten, List.mem_map] at hv
  obtain ⟨l, ⟨pts, hpts, rfl⟩, hvl⟩ := hv
  obtain ⟨b, hb, rfl⟩ := List.mem_map.mp hvl
  exact ⟨b, by simp [allPoints, List.mem_flatten]; exact ⟨pts, hpts, hb⟩, rfl⟩

lemma extrudeGeometry_roofVerts (parts : List (List Vec3)) (isPoly : Bool)
    (height heightOffset : ℚ) (flatten : Bool) (ws : Option SkinParams)
    (b rs : Bool) :
    (extrudeGeometry parts isPoly height heightOffset flatten ws true b rs).roofVerts
      = roofVertsAll flatten (targetLenOf parts height - heightOffset)
          (height - heightOffset) parts := rfl

/-- C2: with flatten = true (non-geocentric mode), every roof vertex of
every part has elevation equal to the shape-global maximum of
point.z + height over all points of all parts, minus the height offset
(stated as: the elevation is an upper bound of the offset-shifted values
and is attained by one of them); consequently all roof vertices of the
shape, across all of its parts, share one elevation. -/
theorem flatten_forces_shared_roof_elevation
    (parts : List (List Vec3)) (isPoly : Bool) (height heightOffset : ℚ)
    (ws : Option SkinParams) (b rs : Bool)
    (hbound : ∀ p ∈ allPoints parts, -DBL_MAX < p.z + height) :
    (∀ v ∈ (extrudeGeometry parts isPoly height heightOffset true ws true b rs).roofVerts,
        (∀ p ∈ allPoints parts, p.z + height - heightOffset ≤ v.z) ∧
        (∃ p ∈ allPoints parts, v.z = p.z + height - heightOffset)) ∧
    (∀ v w,
        v ∈ (extrudeGeometry parts isPoly height heightOffset true ws true b rs).roofVerts →
        w ∈ (extrudeGeometry parts isPoly height heightOffset true ws true b rs).roofVerts →
        v.z = w.z) := by
  have hz : ∀ v ∈ (extrudeGeometry parts isPoly height heightOffset true ws
      true b rs).roofVerts,
      v.z = targetLenOf parts height - heightOffset ∧ (allPoints parts) ≠ [] := by
    intro v hv
    rw [extrudeGeometry_roofVerts] at hv
    obtain ⟨bpt, hb, rfl⟩ := mem_roofVertsAll hv
    constructor
    · simp [roofPtOf]
    · intro hnil; rw [hnil] at hb; simp at hb
  constructor
  · intro v hv
    obtain ⟨hvz, hne⟩ := hz v hv
    rw [targetLenOf_eq_foldl_max] at hvz
    constructor
    · intro p hp
      have := (foldl_max_le (fun p => p.z + height) (allPoints parts) (-DBL_MAX)).2 p hp
      rw [hvz]; linarith
    · rcases foldl_max_attained (fun p => p.z + height) (allPoints parts) (-DBL_MAX)
        with h | ⟨p, hp, h⟩
      · obtain ⟨q, hq⟩ := List.exists_mem_of_ne_nil _ hne
        have h1 := (foldl_max_le (fun p => p.z + height) (allPoints parts) (-DBL_MAX)).2 q hq
        have h2 := hbound q hq
        rw [h] at h1
        linarith
      · exact ⟨p, hp, by rw [hvz, h]⟩
  · intro v w hv hw
    rw [(hz v hv).1, (hz w hw).1]

/-- Witness for C2 at a two-part shape whose parts lie at elevations 0 and
2, with height 3 and offset 1: both parts' roof vertices share elevation 4. -/
theorem flatten_forces_shared_roof_elevation_witness :
    (∀ p ∈ allPoints [[⟨0, 0, 0⟩, ⟨1, 0, 0⟩], [⟨0, 0, 2⟩, ⟨1, 0, 2⟩]],
        -DBL_MAX < p.z + 3) ∧
    (∀ v w,
        v ∈ (extrudeGeometry [[⟨0, 0, 0⟩, ⟨1, 0, 0⟩], [⟨0, 0, 2⟩, ⟨1, 0, 2⟩]]
            true 3 1 true none true false false).roofVerts →
        w ∈ (extrudeGeometry [[⟨0, 0, 0⟩, ⟨1, 0, 0⟩], [⟨0, 0, 2⟩, ⟨1, 0, 2⟩]]
            true 3 1 true none true false false).roofVerts →
        v.z = w.z) := by
  have hb : ∀ p ∈ allPoints [[⟨0, 0, 0⟩, ⟨1, 0, 0⟩], [⟨0, 0, 2⟩, ⟨1, 0, 2⟩]],
      -DBL_MAX < p.z + 3 := by
    intro p hp
    simp only [allPoints, List.flatten, List.append_nil, List.mem_append,
      List.mem_cons, List.not_mem_nil, or_false] at hp
    rcases hp with (rfl | rfl) | (rfl | rfl) <;> norm_num [DBL_MAX]
  exact ⟨hb,
    (flatten_forces_shared_roof_elevation
      [[⟨0, 0, 0⟩, ⟨1, 0, 0⟩], [⟨0, 0, 2⟩, ⟨1, 0, 2⟩]] true 3 1 none false false
      hb).2⟩

lemma len2_comm (a b : Vec3) : len2 a b = len2 b a := by
  unfold len2; ring

lemma dist3_comm (a b : Vec3) : dist3 a b = dist3 b a := by
  unfold dist3; rw [len2_comm]

lemma pairup_cons₂ {α : Type} (a b : α) (l : List α) :
    pairup (a :: b :: l) = (a, b) :: pairup l := rfl

lemma pairup_append {α : Type} :
    ∀ (l1 l2 : List α), l1.length % 2 = 0 →
      pairup (l1 ++ l2) = pairup l1 ++ pairup l2
  | [], _, _ => rfl
  | [a], _, h => by simp at h
  | a :: b :: t, l2, h => by
      have ht : t.length % 2 = 0 := by
        simp only [List.length_cons] at h
        omega
      show (a, b) :: pairup (t ++ l2) = ((a, b) :: pairup t) ++ pairup l2
      rw [pairup_append t l2 ht]
      rfl

lemma pairup_length {α : Type} :
    ∀ (l : List α), (pairup l).length = l.length / 2
  | [] => by
      show (0 : ℕ) = 0 / 2
      omega
  | [_] => by
      show (0 : ℕ) = 1 / 2
      omega
  | a :: b :: t => by
      show (pairup t).length + 1 = (t.length + 1 + 1) / 2
      rw [pairup_length t]
      omega

lemma partTexAux_cons (rep : Bool) (texW adj : ℚ) (fl : Bool) (tl hg : ℚ)
    (prev : Option Vec3) (pl : ℝ) (b : Vec3) (rest : List Vec3) :
    partTexAux rep texW adj fl tl hg prev pl (b :: rest) =
      ((match prev with
        | none => pl
        | some pr => pl + dist3 pr (roofPtOf fl tl hg b)) / ((texW : ℚ) : ℝ), 0) ::
      ((match prev with
        | none => pl
        | some pr => pl + dist3 pr (roofPtOf fl tl hg b)) / ((texW : ℚ) : ℝ),
        (if rep then -(dist3 b (roofPtOf fl tl hg b)) else -((adj : ℚ) : ℝ)) /
          ((adj : ℚ) : ℝ)) ::
      partTexAux rep texW adj fl tl hg (some (roofPtOf fl tl hg b))
        (match prev with
         | none => pl
         | some pr => pl + dist3 pr (roofPtOf fl tl hg b)) rest := rfl

lemma partTexAux_length (rep : Bool) (texW adj : ℚ) (fl : Bool) (tl hg : ℚ) :
    ∀ (pts : List Vec3) (prev : Option Vec3) (pl : ℝ),
      (partTexAux rep texW adj fl tl hg prev pl pts).length = 2 * pts.length := by
  intro pts
  induction pts with
  | nil => intro prev pl; rfl
  | cons b rest ih =>
      intro prev pl
      rw [partTexAux_cons]
      simp only [List.length_cons, ih]
      omega

lemma partWallVerts_cons (fl : Bool) (tl hg : ℚ) (b : Vec3) (rest : List Vec3) :
    partWallVerts fl tl hg (b :: rest) =
      roofPtOf fl tl hg b :: b :: partWallVerts fl tl hg rest := rfl

lemma partTex_pairs (rep : Bool) (texW adj : ℚ) (fl : Bool) (tl hg : ℚ) :
    ∀ (pts : List Vec3) (prev : Option Vec3) (pl : ℝ)
      (vp : Vec3 × Vec3) (tp : (ℝ × ℝ) × (ℝ × ℝ)),
      (vp, tp) ∈ (pairup (partWallVerts fl tl hg pts)).zip
          (pairup (partTexAux rep texW adj fl tl hg prev pl pts)) →
      tp.1.2 = 0 ∧
      tp.2.2 = -(if rep then dist3 vp.1 vp.2 else ((adj : ℚ) : ℝ)) / ((adj : ℚ) : ℝ) := by
  intro pts
  induction pts with
  | nil =>
      intro prev pl vp tp h
      simp [partWallVerts, partTexAux, pairup] at h
  | cons b rest ih =>
      intro prev pl vp tp h
      rw [partWallVerts_cons, partTexAux_cons, pairup_cons₂, pairup_cons₂,
        List.zip_cons_cons] at h
      rcases List.mem_cons.mp h with heq | htail
      · have hvp : vp = (roofPtOf fl tl hg b, b) := (Prod.mk.injEq _ _ _ _ ▸ heq).1
        have htp := (Prod.mk.injEq _ _ _ _ ▸ heq).2
        subst hvp; subst htp
        refine ⟨rfl, ?_⟩
        cases rep with
        | false => simp
        | true => simp [dist3_comm, neg_div]
      · exact ih _ _ vp tp htail

lemma mem_zip_pairup_flatten {α β : Type} {P : (α × α) × (β × β) → Prop} :
    ∀ (ws : List (List α)) (ts : List (List β)),
      List.Forall₂ (fun w t =>
        w.length = t.length ∧ w.length % 2 = 0 ∧
          ∀ x ∈ (pairup w).zip (pairup t), P x) ws ts →
      ∀ x ∈ (pairup ws.flatten).zip (pairup ts.flatten), P x := by
  intro ws ts hf
  induction hf with
  | nil => intro x hx; simp [pairup] at hx
  | @cons w t ws' ts' h _ ih =>
      intro x hx
      obtain ⟨hlen, heven, hP⟩ := h
      rw [List.flatten_cons, List.flatten_cons,
        pairup_append _ _ heven, pairup_append _ _ (hlen ▸ heven),
        List.zip_append (by rw [pairup_length, pairup_length, hlen])] at hx
      rcases List.mem_append.mp hx with h1 | h2
      · exact hP x h1
      · exact ih x h2

lemma forall₂_map_same {α β γ : Type} (f : α → β) (g : α → γ) (R : β → γ → Prop) :
    ∀ (l : List α), (∀ a ∈ l, R (f a) (g a)) →
      List.Forall₂ R (l.map f) (l.map g) := by
  intro l
  induction l with
  | nil => intro _; simp
  | cons a t ih =>
      intro h
      simp only [List.map_cons]
      exact List.Forall₂.cons (h a (List.mem_cons_self a t))
        (ih fun x hx => h x (List.mem_cons_of_mem a hx))

lemma extrudeGeometry_wallTexcoords_some (parts : List (List Vec3))
    (isPoly : Bool) (height heightOffset : ℚ) (flatten : Bool)
    (sp : SkinParams) (r b rs : Bool) :
    (extrudeGeometry parts isPoly height heightOffset flatten (some sp) r b rs).wallTexcoords
      = wallTexAll sp.repeatsY sp.texWidth
          (texHeightAdj (maxHeightOf parts height heightOffset) sp.texHeight)
          flatten (targetLenOf parts height - heightOffset)
          (height - heightOffset) parts := rfl

/-- C3: with a wall skin present, for every emitted wall point-pair the
texture V-coordinate of the roof vertex is 0 and the V-coordinate of the
paired base vertex is -segmentHeight/adjustedTileHeight, where
segmentHeight is the adjusted tile height when the repeat-Y flag is false
and the 3D distance between the stored roof and base vertices when the
repeat-Y flag is true. -/
theorem wall_texcoord_v_coordinates (parts : List (List Vec3)) (isPoly : Bool)
    (height heightOffset : ℚ) (flatten : Bool) (sp : SkinParams) (r b rs : Bool) :
    ∀ (vp : Vec3 × Vec3) (tp : (ℝ × ℝ) × (ℝ × ℝ)),
      (vp, tp) ∈
        (pairup (extrudeGeometry parts isPoly height heightOffset flatten
            (some sp) r b rs).wallVerts).zip
        (pairup (extrudeGeometry parts isPoly height heightOffset flatten
            (some sp) r b rs).wallTexcoords) →
      tp.1.2 = 0 ∧
      tp.2.2 =
        -(if sp.repeatsY then dist3 vp.1 vp.2
          else ((texHeightAdj (maxHeightOf parts height heightOffset)
              sp.texHeight : ℚ) : ℝ)) /
        ((texHeightAdj (maxHeightOf parts height heightOffset)
            sp.texHeight : ℚ) : ℝ) := by
  intro vp tp hmem
  rw [extrudeGeometry_wallVerts, extrudeGeometry_wallTexcoords_some] at hmem
  revert hmem
  have key := mem_zip_pairup_flatten
    (P := fun x : (Vec3 × Vec3) × (ℝ × ℝ) × (ℝ × ℝ) =>
      x.2.1.2 = 0 ∧
      x.2.2.2 =
        -(if sp.repeatsY then dist3 x.1.1 x.1.2
          else ((texHeightAdj (maxHeightOf parts height heightOffset)
              sp.texHeight : ℚ) : ℝ)) /
        ((texHeightAdj (maxHeightOf parts height heightOffset)
            sp.texHeight : ℚ) : ℝ))
    (parts.map (partWallVerts flatten
        (targetLenOf parts height - heightOffset) (height - heightOffset)))
    (parts.map (partTexcoords sp.repeatsY sp.texWidth
        (texHeightAdj (maxHeightOf parts height heightOffset) sp.texHeight)
        flatten (targetLenOf parts height - heightOffset)
        (height - heightOffset)))
  intro hmem
  refine key ?_ (vp, tp) hmem
  refine forall₂_map_same _ _ _ parts ?_
  intro pts _
  refine ⟨?_, ?_, ?_⟩
  · rw [partWallVerts_length, partTexcoords,
      partTexAux_length]
  · rw [partWallVerts_length]; omega
  · intro x hx
    exact partTex_pairs _ _ _ _ _ _ pts none 0 x.1 x.2 hx

/-- Witness for C3, stretch mode, at a one-point line part (0,0,0) with
height 5, offset 0 and a wall skin of tile width 1 and height 5: the
stored pair is roof (0,0,5) and base (0,0,0), the roof texcoord V is 0 and
the base texcoord V is -1 = -adj/adj with adj = 5. -/
theorem wall_texcoord_v_coordinates_witness :
    (((⟨0, 0, 5⟩, ⟨0, 0, 0⟩) : Vec3 × Vec3),
      ((((0 : ℝ), (0 : ℝ)), ((0 : ℝ), (-1 : ℝ))) : (ℝ × ℝ) × (ℝ × ℝ))) ∈
      (pairup (extrudeGeometry [[⟨0, 0, 0⟩]] false 5 0 false
          (some ⟨1, 5, false⟩) false false false).wallVerts).zip
      (pairup (extrudeGeometry [[⟨0, 0, 0⟩]] false 5 0 false
          (some ⟨1, 5, false⟩) false false false).wallTexcoords) ∧
    ((((0 : ℝ), (0 : ℝ)), ((0 : ℝ), (-1 : ℝ))) : (ℝ × ℝ) × (ℝ × ℝ)).1.2 = 0 ∧
    ((((0 : ℝ), (0 : ℝ)), ((0 : ℝ), (-1 : ℝ))) : (ℝ × ℝ) × (ℝ × ℝ)).2.2 =
      -(if (⟨1, 5, false⟩ : SkinParams).repeatsY
         then dist3 (⟨0, 0, 5⟩ : Vec3) (⟨0, 0, 0⟩ : Vec3)
         else ((texHeightAdj (maxHeightOf [[⟨0, 0, 0⟩]] 5 0)
             (⟨1, 5, false⟩ : SkinParams).texHeight : ℚ) : ℝ)) /
      ((texHeightAdj (maxHeightOf [[⟨0, 0, 0⟩]] 5 0)
          (⟨1, 5, false⟩ : SkinParams).texHeight : ℚ) : ℝ) := by
  have hadj : texHeightAdj (maxHeightOf [[⟨0, 0, 0⟩]] 5 0) 5 = 5 := by
    have ht : targetLenOf [[(⟨0, 0, 0⟩ : Vec3)]] 5 = 5 := by
      rw [targetLenOf]
      show (if (0 : ℚ) + 5 > -DBL_MAX then (0 : ℚ) + 5 else -DBL_MAX) = 5
      rw [if_pos (by norm_num [DBL_MAX])]
      norm_num
    have hm : (minLocOf [[(⟨0, 0, 0⟩ : Vec3)]]).z = 0 := by
      rw [minLocOf]
      show (if (0 : ℚ) < DBL_MAX then (⟨0, 0, 0⟩ : Vec3) else _).z = 0
      rw [if_pos (by norm_num [DBL_MAX])]
    rw [texHeightAdj, texHeightDiv, maxHeightOf, ht, hm]
    norm_num [osgRound]
  have hmem :
      (((⟨0, 0, 5⟩, ⟨0, 0, 0⟩) : Vec3 × Vec3),
        ((((0 : ℝ), (0 : ℝ)), ((0 : ℝ), (-1 : ℝ))) : (ℝ × ℝ) × (ℝ × ℝ))) ∈
        (pairup (extrudeGeometry [[⟨0, 0, 0⟩]] false 5 0 false
            (some ⟨1, 5, false⟩) false false false).wallVerts).zip
        (pairup (extrudeGeometry [[⟨0, 0, 0⟩]] false 5 0 false
            (some ⟨1, 5, false⟩) false false false).wallTexcoords) := by
    rw [extrudeGeometry_wallVerts, extrudeGeometry_wallTexcoords_some]
    show _ ∈ (pairup (partWallVerts false (targetLenOf [[⟨0, 0, 0⟩]] 5 - 0)
        (5 - 0) [⟨0, 0, 0⟩] ++ [])).zip
      (pairup (partTexcoords false 1 (texHeightAdj (maxHeightOf [[⟨0, 0, 0⟩]] 5 0) 5)
        false (targetLenOf [[⟨0, 0, 0⟩]] 5 - 0) (5 - 0) [⟨0, 0, 0⟩] ++ []))
    have ht : targetLenOf [[(⟨0, 0, 0⟩ : Vec3)]] 5 = 5 := by
      rw [targetLenOf]
      show (if (0 : ℚ) + 5 > -DBL_MAX then (0 : ℚ) + 5 else -DBL_MAX) = 5
      rw [if_pos (by norm_num [DBL_MAX])]
      norm_num
    rw [ht, hadj]
    simp only [List.append_nil, partTexcoords, partTexAux_cons,
      partWallVerts_cons, partWallVerts, List.flatMap_nil, roofPtOf]
    norm_num [pairup, List.zip_cons_cons, Prod.ext_iff, Vec3.mk.injEq]
  refine ⟨hmem, wall_texcoord_v_coordinates [[⟨0, 0, 0⟩]] false 5 0 false
    ⟨1, 5, false⟩ false false false (⟨0, 0, 5⟩, ⟨0, 0, 0⟩)
    (((0 : ℝ), (0 : ℝ)), ((0 : ℝ), (-1 : ℝ))) hmem⟩

lemma mem_pairup_flatten {α : Type} {P : α × α → Prop} :
    ∀ (ls : List (List α)),
      (∀ l ∈ ls, l.length % 2 = 0) →
      (∀ l ∈ ls, ∀ x ∈ pairup l, P x) →
      ∀ x ∈ pairup ls.flatten, P x := by
  intro ls
  induction ls with
  | nil => intro _ _ x hx; simp [pairup] at hx
  | cons l rest ih =>
      intro hev hP x hx
      rw [List.flatten_cons,
        pairup_append _ _ (hev l (List.mem_cons_self l rest))] at hx
      rcases List.mem_append.mp hx with h1 | h2
      · exact hP l (List.mem_cons_self l rest) x h1
      · exact ih (fun m hm => hev m (List.mem_cons_of_mem l hm))
          (fun m hm => hP m (List.mem_cons_of_mem l hm)) x h2

lemma partTexAux_stretch_v (texW adj : ℚ) (fl : Bool) (tl hg : ℚ) :
    ∀ (pts : List Vec3) (prev : Option Vec3) (pl : ℝ),
      ∀ tp ∈ pairup (partTexAux false texW adj fl tl hg prev pl pts),
        tp.2.2 = -((adj : ℚ) : ℝ) / ((adj : ℚ) : ℝ) := by
  intro pts
  induction pts with
  | nil => intro prev pl tp htp; simp [partTexAux, pairup] at htp
  | cons b rest ih =>
      intro prev pl tp htp
      rw [partTexAux_cons, pairup_cons₂] at htp
      rcases List.mem_cons.mp htp with heq | htail
      · subst heq; simp
      · exact ih _ _ tp htail

/-- C10: in stretch mode (repeat-Y flag false), whenever the adjusted tile
height is nonzero the texture V-coordinate of every emitted base vertex is
exactly -1, independently of the actual wall height at that point, because
the segment height is the adjusted tile height itself. -/
theorem stretch_mode_base_v_minus_one (parts : List (List Vec3)) (isPoly : Bool)
    (height heightOffset : ℚ) (flatten : Bool) (texW texH : ℚ) (r b rs : Bool)
    (hadj : texHeightAdj (maxHeightOf parts height heightOffset) texH ≠ 0) :
    ∀ tp ∈ pairup (extrudeGeometry parts isPoly height heightOffset flatten
        (some ⟨texW, texH, false⟩) r b rs).wallTexcoords,
      tp.2.2 = -1 := by
  intro tp htp
  rw [extrudeGeometry_wallTexcoords_some] at htp
  dsimp only at htp
  have key := mem_pairup_flatten
    (P := fun tp : (ℝ × ℝ) × (ℝ × ℝ) =>
      tp.2.2 = -((texHeightAdj (maxHeightOf parts height heightOffset) texH : ℚ) : ℝ) /
        ((texHeightAdj (maxHeightOf parts height heightOffset) texH : ℚ) : ℝ))
    (parts.map (partTexcoords false texW
        (texHeightAdj (maxHeightOf parts height heightOffset) texH)
        flatten (targetLenOf parts height - heightOffset) (height - heightOffset)))
    (by
      intro l hl
      obtain ⟨pts, _, rfl⟩ := List.mem_map.mp hl
      rw [partTexcoords, partTexAux_length]
      omega)
    (by
      intro l hl x hx
      obtain ⟨pts, _, rfl⟩ := List.mem_map.mp hl
      exact partTexAux_stretch_v _ _ _ _ _ pts none 0 x hx)
    tp htp
  rw [key, neg_div, div_self]
  exact_mod_cast hadj

/-- Witness for C10 at a one-point line part (0,0,0) with height 5, offset
0, tile width 1 and tile height 5 (adjusted tile height 5): the base
texcoord V is -1. -/
theorem stretch_mode_base_v_minus_one_witness :
    texHeightAdj (maxHeightOf [[⟨0, 0, 0⟩]] 5 0) 5 ≠ 0 ∧
    ((((0 : ℝ), (0 : ℝ)), ((0 : ℝ), (-1 : ℝ))) : (ℝ × ℝ) × (ℝ × ℝ)) ∈
      pairup (extrudeGeometry [[⟨0, 0, 0⟩]] false 5 0 false
        (some ⟨1, 5, false⟩) false false false).wallTexcoords ∧
    ((((0 : ℝ), (0 : ℝ)), ((0 : ℝ), (-1 : ℝ))) : (ℝ × ℝ) × (ℝ × ℝ)).2.2 = -1 := by
  have ht : targetLenOf [[(⟨0, 0, 0⟩ : Vec3)]] 5 = 5 := by
    rw [targetLenOf]
    show (if (0 : ℚ) + 5 > -DBL_MAX then (0 : ℚ) + 5 else -DBL_MAX) = 5
    rw [if_pos (by norm_num [DBL_MAX])]
    norm_num
  have hm : (minLocOf [[(⟨0, 0, 0⟩ : Vec3)]]).z = 0 := by
    rw [minLocOf]
    show (if (0 : ℚ) < DBL_MAX then (⟨0, 0, 0⟩ : Vec3) else _).z = 0
    rw [if_pos (by norm_num [DBL_MAX])]
  have hadj : texHeightAdj (maxHeightOf [[⟨0, 0, 0⟩]] 5 0) 5 = 5 := by
    rw [texHeightAdj, texHeightDiv, maxHeightOf, ht, hm]
    norm_num [osgRound]
  have hne : texHeightAdj (maxHeightOf [[⟨0, 0, 0⟩]] 5 0) 5 ≠ 0 := by
    rw [hadj]; norm_num
  have hmem :
      ((((0 : ℝ), (0 : ℝ)), ((0 : ℝ), (-1 : ℝ))) : (ℝ × ℝ) × (ℝ × ℝ)) ∈
        pairup (extrudeGeometry [[⟨0, 0, 0⟩]] false 5 0 false
          (some ⟨1, 5, false⟩) false false false).wallTexcoords := by
    rw [extrudeGeometry_wallTexcoords_some]
    show _ ∈ pairup (partTexcoords false 1
      (texHeightAdj (maxHeightOf [[⟨0, 0, 0⟩]] 5 0) 5)
      false (targetLenOf [[⟨0, 0, 0⟩]] 5 - 0) (5 - 0) [⟨0, 0, 0⟩] ++ [])
    rw [ht, hadj]
    simp only [List.append_nil, partTexcoords, partTexAux_cons, roofPtOf]
    norm_num [pairup, Prod.ext_iff]
  exact ⟨hne, hmem,
    stretch_mode_base_v_minus_one [[⟨0, 0, 0⟩]] false 5 0 false 1 5
      false false false hne
      (((0 : ℝ), (0 : ℝ)), ((0 : ℝ), (-1 : ℝ))) hmem⟩

/-- C7: the texture-tile-height divisor osg::round(maxHeight/tileHeight) is
replaced by 1 exactly when it rounds to zero, so the divisor is never
zero, the adjusted tile height is maxHeight over a nonzero divisor, and
the V-coordinate division h/tex_height_m_adj has a nonzero divisor
whenever the vertical span maxHeight is nonzero; no branch of this
computation signals an error. -/
theorem tex_tile_height_divisor_guard (maxHeight texHeightM : ℚ) :
    texHeightDiv maxHeight texHeightM ≠ 0 ∧
    (osgRound (maxHeight / texHeightM) = 0 →
      texHeightDiv maxHeight texHeightM = 1) ∧
    (osgRound (maxHeight / texHeightM) ≠ 0 →
      texHeightDiv maxHeight texHeightM = osgRound (maxHeight / texHeightM)) ∧
    texHeightAdj maxHeight texHeightM
      = maxHeight / texHeightDiv maxHeight texHeightM ∧
    (maxHeight ≠ 0 → texHeightAdj maxHeight texHeightM ≠ 0) := by
  by_cases h : osgRound (maxHeight / texHeightM) = 0
  · have hd : texHeightDiv maxHeight texHeightM = 1 := by
      rw [texHeightDiv]; simp [h]
    exact ⟨by rw [hd]; norm_num, fun _ => hd, fun hc => absurd h hc, rfl,
      fun hm => by rw [texHeightAdj, hd]; simpa using hm⟩
  · have hd : texHeightDiv maxHeight texHeightM
        = osgRound (maxHeight / texHeightM) := by
      rw [texHeightDiv]; simp [h]
    exact ⟨by rw [hd]; exact h, fun hc => absurd hc h, fun _ => hd, rfl,
      fun hm => by rw [texHeightAdj]; exact div_ne_zero hm (hd ▸ h)⟩

/-- Witness for C7 at maxHeight = 1, tileHeight = 5: the raw divisor rounds
to zero, is clamped to 1, and the adjusted tile height 1 is nonzero. -/
theorem tex_tile_height_divisor_guard_witness :
    osgRound ((1 : ℚ) / 5) = 0 ∧ texHeightDiv 1 5 = 1 ∧
    ((1 : ℚ) ≠ 0 ∧ texHeightAdj 1 5 ≠ 0) := by
  have h0 : osgRound ((1 : ℚ) / 5) = 0 := by
    rw [osgRound, if_pos (by norm_num)]
    norm_num
  exact ⟨h0, (tex_tile_height_divisor_guard 1 5).2.1 h0,
    by norm_num, (tex_tile_height_divisor_guard 1 5).2.2.2.2 (by norm_num)⟩

/-- C9: with a roof geometry and roof skin present, extrudeGeometry
allocates one roof texture coordinate per input point and computes the
roof rotation from the longest edge, but never writes into the roof
texture coordinate array: every entry remains the default (0,0), for
every shape and every parameter choice. -/
theorem roof_texcoords_never_written (parts : List (List Vec3)) (isPoly : Bool)
    (height heightOffset : ℚ) (flatten : Bool) (ws : Option SkinParams)
    (b : Bool) :
    (extrudeGeometry parts isPoly height heightOffset flatten ws true b
        true).roofTexcoords
      = List.replicate (allPoints parts).length ((0 : ℝ), (0 : ℝ)) ∧
    (extrudeGeometry parts isPoly height heightOffset flatten ws true b
        true).roofTexcoords.length = (allPoints parts).length ∧
    (extrudeGeometry parts isPoly height heightOffset flatten ws true b
        true).roofRotation = getApparentRotation (allPoints parts) := by
  refine ⟨rfl, ?_, rfl⟩
  show (List.replicate (allPoints parts).length ((0 : ℝ), (0 : ℝ))).length = _
  rw [List.length_replicate]

/-- C4: the base-vertex reversal loop uses the part-local length len as the
absolute loop bound (i &lt; len/2 instead of i &lt; basePartPtr + len/2),
so for a two-part shape the second part's base vertices are left in their
original, unreversed order; the first part is reversed as documented. -/
theorem base_vertex_reversal_bug :
    (extrudeGeometry [[⟨0, 0, 0⟩, ⟨1, 0, 0⟩, ⟨1, 1, 0⟩],
        [⟨5, 5, 0⟩, ⟨6, 5, 0⟩, ⟨7, 7, 0⟩]]
        true 1 0 false none false true false).baseVerts
      = [⟨1, 1, 0⟩, ⟨1, 0, 0⟩, ⟨0, 0, 0⟩, ⟨5, 5, 0⟩, ⟨6, 5, 0⟩, ⟨7, 7, 0⟩] ∧
    ([⟨1, 1, 0⟩, ⟨1, 0, 0⟩, ⟨0, 0, 0⟩, ⟨5, 5, 0⟩, ⟨6, 5, 0⟩, ⟨7, 7, 0⟩]
        : List Vec3)
      ≠ [⟨1, 1, 0⟩, ⟨1, 0, 0⟩, ⟨0, 0, 0⟩, ⟨7, 7, 0⟩, ⟨6, 5, 0⟩, ⟨5, 5, 0⟩] := by
  constructor
  · show baseVertsAll [[⟨0, 0, 0⟩, ⟨1, 0, 0⟩, ⟨1, 1, 0⟩],
        [⟨5, 5, 0⟩, ⟨6, 5, 0⟩, ⟨7, 7, 0⟩]] = _
    decide
  · decide

lemma partWallVerts_nil (f : Bool) (t h : ℚ) : partWallVerts f t h [] = [] := rfl

lemma partTexcoords_nil (rep : Bool) (texW adj : ℚ) (f : Bool) (t h : ℚ) :
    partTexcoords rep texW adj f t h [] = [] := rfl

lemma partWallIdx_nil (isPoly : Bool) (pp o : ℕ) :
    partWallIdx isPoly pp o [] = [] := rfl

lemma allPoints_skip_empty (ps1 ps2 : List (List Vec3)) :
    allPoints (ps1 ++ [[]] ++ ps2) = allPoints (ps1 ++ ps2) := by
  simp [allPoints]

lemma reverseBaseLoop_empty_step (acc : List Vec3) :
    reverseBaseLoop acc.length 0 (acc ++ []) = acc := by
  rw [reverseBaseLoop]
  simp

lemma baseVertsAll_skip_empty (ps1 ps2 : List (List Vec3)) :
    baseVertsAll (ps1 ++ [[]] ++ ps2) = baseVertsAll (ps1 ++ ps2) := by
  unfold baseVertsAll
  simp only [List.append_assoc, List.foldl_append, List.foldl_cons,
    List.foldl_nil]
  congr 1
  exact reverseBaseLoop_empty_step _

lemma wallIdxGo_flatten_congr (isPoly : Bool) :
    ∀ (ps : List (List Vec3)) (L L' : List (List ℕ)) (o : ℕ),
      L.flatten = L'.flatten →
      ((ps.foldl
        (fun (acc : List (List ℕ) × ℕ) pts =>
          (acc.1 ++ [partWallIdx isPoly acc.2 acc.2 pts], acc.2 + 2 * pts.length))
        (L, o)).1).flatten
      = ((ps.foldl
        (fun (acc : List (List ℕ) × ℕ) pts =>
          (acc.1 ++ [partWallIdx isPoly acc.2 acc.2 pts], acc.2 + 2 * pts.length))
        (L', o)).1).flatten := by
  intro ps
  induction ps with
  | nil => intro L L' o h; exact h
  | cons pts rest ih =>
      intro L L' o h
      rw [List.foldl_cons, List.foldl_cons]
      exact ih _ _ _ (by simp [h])

lemma wallIdxAll_skip_empty (isPoly : Bool) (ps1 ps2 : List (List Vec3)) :
    (wallIdxAll isPoly (ps1 ++ [[]] ++ ps2)).flatten
      = (wallIdxAll isPoly (ps1 ++ ps2)).flatten := by
  unfold wallIdxAll
  simp only [List.append_assoc, List.foldl_append, List.foldl_cons,
    List.foldl_nil]
  refine wallIdxGo_flatten_congr isPoly ps2 _ _ _ ?_
  simp [partWallIdx_nil]

/-- C6 counterexample: a degenerate POLYGON part with a single point is not
silent: it emits two wall vertices and one primitive set holding the two
degenerate closing triangles (0,1,0) and (1,1,0), so wall output is
produced for that part. -/
theorem one_point_polygon_part_emits_wall_output :
    (extrudeGeometry [[⟨0, 0, 0⟩]] true 1 0 false none false false
        false).wallIndices = [[0, 1, 0, 1, 1, 0]] ∧
    (extrudeGeometry [[⟨0, 0, 0⟩]] true 1 0 false none false false
        false).wallVerts.length = 2 ∧
    ([[0, 1, 0, 1, 1, 0]] : List (List ℕ)) ≠ [[]] := by
  refine ⟨?_, ?_, by decide⟩
  · show wallIdxAll true [[⟨0, 0, 0⟩]] = [[0, 1, 0, 1, 1, 0]]
    decide
  · rw [extrudeGeometry_wallVerts, wallVertsAll_single, partWallVerts_length]
    simp

/-- C6 (amended): a part with zero points contributes no wall vertices, no
wall triangles, no roof vertices and no base vertices, and the outputs of
all sibling parts are unchanged by its presence; a one-point LINE part
yields no triangles, while a one-point POLYGON part yields exactly the two
degenerate closing triangles over its own point-pair; processing always
continues over the remaining parts. -/
theorem degenerate_part_emission :
    (∀ (ps1 ps2 : List (List Vec3)) (isPoly : Bool) (height heightOffset : ℚ)
        (flatten : Bool) (ws : Option SkinParams) (r b rs : Bool),
      (extrudeGeometry (ps1 ++ [[]] ++ ps2) isPoly height heightOffset flatten
          ws r b rs).wallVerts
        = (extrudeGeometry (ps1 ++ ps2) isPoly height heightOffset flatten
          ws r b rs).wallVerts ∧
      ((extrudeGeometry (ps1 ++ [[]] ++ ps2) isPoly height heightOffset flatten
          ws r b rs).wallIndices).flatten
        = ((extrudeGeometry (ps1 ++ ps2) isPoly height heightOffset flatten
          ws r b rs).wallIndices).flatten ∧
      (extrudeGeometry (ps1 ++ [[]] ++ ps2) isPoly height heightOffset flatten
          ws r b rs).roofVerts
        = (extrudeGeometry (ps1 ++ ps2) isPoly height heightOffset flatten
          ws r b rs).roofVerts ∧
      (extrudeGeometry (ps1 ++ [[]] ++ ps2) isPoly height heightOffset flatten
          ws r b rs).baseVerts
        = (extrudeGeometry (ps1 ++ ps2) isPoly height heightOffset flatten
          ws r b rs).baseVerts ∧
      (extrudeGeometry (ps1 ++ [[]] ++ ps2) isPoly height heightOffset flatten
          ws r b rs).wallTexcoords
        = (extrudeGeometry (ps1 ++ ps2) isPoly height heightOffset flatten
          ws r b rs).wallTexcoords) ∧
    (∀ (pp o : ℕ) (x : Vec3), partWallIdx false pp o [x] = []) ∧
    (∀ (pp : ℕ) (x : Vec3),
      partWallIdx true pp pp [x] = [pp, pp + 1, pp, pp + 1, pp + 1, pp]) := by
  refine ⟨?_, fun pp o x => rfl, fun pp x => rfl⟩
  intro ps1 ps2 isPoly height heightOffset flatten ws r b rs
  have hap := allPoints_skip_empty ps1 ps2
  have htl : targetLenOf (ps1 ++ [[]] ++ ps2) height
      = targetLenOf (ps1 ++ ps2) height := by
    unfold targetLenOf; rw [hap]
  have hml : minLocOf (ps1 ++ [[]] ++ ps2) = minLocOf (ps1 ++ ps2) := by
    unfold minLocOf; rw [hap]
  have hmh : maxHeightOf (ps1 ++ [[]] ++ ps2) height heightOffset
      = maxHeightOf (ps1 ++ ps2) height heightOffset := by
    unfold maxHeightOf; rw [htl, hml]
  refine ⟨?_, ?_, ?_, ?_, ?_⟩
  · rw [extrudeGeometry_wallVerts, extrudeGeometry_wallVerts, htl]
    unfold wallVertsAll
    simp [partWallVerts_nil]
  · rw [extrudeGeometry_wallIndices, extrudeGeometry_wallIndices]
    exact wallIdxAll_skip_empty isPoly ps1 ps2
  · cases r with
    | false => rfl
    | true =>
        rw [extrudeGeometry_roofVerts, extrudeGeometry_roofVerts, htl]
        unfold roofVertsAll
        simp
  · cases b with
    | false => rfl
    | true =>
        show (if true = true then baseVertsAll (ps1 ++ [[]] ++ ps2) else [])
          = (if true = true then baseVertsAll (ps1 ++ ps2) else [])
        rw [if_pos rfl, if_pos rfl]
        exact baseVertsAll_skip_empty ps1 ps2
  · cases ws with
    | none => rfl
    | some sp =>
        rw [extrudeGeometry_wallTexcoords_some,
          extrudeGeometry_wallTexcoords_some, htl, hmh]
        unfold wallTexAll
        simp [partTexcoords_nil]

lemma rotScan_invariant :
    ∀ (l : List (Vec3 × Vec3)) (st : (Vec3 × Vec3) × ℚ),
      (l.foldl rotScanStep st = st ∧ ∀ s ∈ l, len2 s.1 s.2 ≤ st.2) ∨
      (∃ (k : ℕ) (hk : k < l.length),
        (l.foldl rotScanStep st).1 = l.get ⟨k, hk⟩ ∧
        (l.foldl rotScanStep st).2
          = len2 (l.get ⟨k, hk⟩).1 (l.get ⟨k, hk⟩).2 ∧
        st.2 < (l.foldl rotScanStep st).2 ∧
        (∀ (j : ℕ) (hj : j < l.length), j < k →
          len2 (l.get ⟨j, hj⟩).1 (l.get ⟨j, hj⟩).2
            < (l.foldl rotScanStep st).2) ∧
        (∀ s ∈ l, len2 s.1 s.2 ≤ (l.foldl rotScanStep st).2)) := by
  intro l
  induction l with
  | nil => intro st; left; exact ⟨rfl, by simp⟩
  | cons s t ih =>
      intro st
      rw [List.foldl_cons]
      by_cases hgt : len2 s.1 s.2 > st.2
      · have hstep : rotScanStep st s = (s, len2 s.1 s.2) := by
          rw [rotScanStep, if_pos hgt]
        rw [hstep]
        rcases ih (s, len2 s.1 s.2) with ⟨heq, hbd⟩ | ⟨k, hk, h1, h2, h3, h4, h5⟩
        · right
          refine ⟨0, by simp, ?_, ?_, ?_, ?_, ?_⟩
          · rw [heq]; rfl
          · rw [heq]; rfl
          · rw [heq]; exact hgt
          · intro j hj hj0; omega
          · intro s' hs'
            rcases List.mem_cons.mp hs' with rfl | hs'
            · rw [heq]
            · rw [heq]; exact hbd s' hs'

        · right
          refine ⟨k + 1, by simpa using hk, h1, h2, lt_trans hgt h3, ?_, ?_⟩
          · intro j hj hjk
            cases j with
            | zero => exact lt_of_le_of_lt (le_of_eq rfl) h3
            | succ j' =>
                exact h4 j' (by simpa using hj) (by omega)
          · intro s' hs'
            rcases List.mem_cons.mp hs' with rfl | hs'
            · have h3' : len2 s'.1 s'.2
                  < (List.foldl rotScanStep (s', len2 s'.1 s'.2) t).2 := h3
              exact le_of_lt h3'
            · exact h5 s' hs'
      · have hstep : rotScanStep st s = st := by
          rw [rotScanStep, if_neg hgt]
        rw [hstep]
        push_neg at hgt
        rcases ih st with ⟨heq, hbd⟩ | ⟨k, hk, h1, h2, h3, h4, h5⟩
        · left
          refine ⟨heq, ?_⟩
          intro s' hs'
          rcases List.mem_cons.mp hs' with rfl | hs'
          · exact hgt
          · exact hbd s' hs'
        · right
          refine ⟨k + 1, by simpa using hk, h1, h2, h3, ?_, ?_⟩
          · intro j hj hjk
            cases j with
            | zero => exact lt_of_le_of_lt hgt h3
            | succ j' =>
                exact h4 j' (by simpa using hj) (by omega)
          · intro s' hs'
            rcases List.mem_cons.mp hs' with rfl | hs'
            · exact le_of_lt (lt_of_le_of_lt hgt h3)
            · exact h5 s' hs'

/-- C5 counterexample: for the rectangle (0,0,0),(0,3,0),(1,3,0),(1,0,0)
the retained longest edge is the first edge (0,0,0)-(0,3,0) of maximal
squared length 9, whose endpoints have equal x-coordinates.  The claim
requires the original endpoint order to be preserved in that case, which
would give atan2(3,0) = pi/2; the code instead swaps the endpoints and
returns atan2(-3,0) = -pi/2. -/
theorem rotation_equal_x_orientation_counterexample :
    retainedSeg [⟨0, 0, 0⟩, ⟨0, 3, 0⟩, ⟨1, 3, 0⟩, ⟨1, 0, 0⟩]
      = (⟨0, 0, 0⟩, ⟨0, 3, 0⟩) ∧
    getApparentRotation [⟨0, 0, 0⟩, ⟨0, 3, 0⟩, ⟨1, 3, 0⟩, ⟨1, 0, 0⟩]
      = -(Real.pi / 2) ∧
    atan2 (3 : ℝ) 0 = Real.pi / 2 ∧
    getApparentRotation [⟨0, 0, 0⟩, ⟨0, 3, 0⟩, ⟨1, 3, 0⟩, ⟨1, 0, 0⟩]
      ≠ atan2 (3 : ℝ) 0 := by
  have hseg : retainedSeg [⟨0, 0, 0⟩, ⟨0, 3, 0⟩, ⟨1, 3, 0⟩, ⟨1, 0, 0⟩]
      = (⟨0, 0, 0⟩, ⟨0, 3, 0⟩) := by
    rw [retainedSeg,
      show segmentsOf [⟨0, 0, 0⟩, ⟨0, 3, 0⟩, ⟨1, 3, 0⟩, ⟨1, 0, 0⟩] =
        [(⟨0, 0, 0⟩, ⟨0, 3, 0⟩), (⟨0, 3, 0⟩, ⟨1, 3, 0⟩),
         (⟨1, 3, 0⟩, ⟨1, 0, 0⟩), (⟨1, 0, 0⟩, ⟨0, 0, 0⟩)] from rfl]
    norm_num [List.foldl_cons, List.foldl_nil, rotScanStep, len2]
  have hpos : atan2 (3 : ℝ) 0 = Real.pi / 2 := by
    rw [atan2]
    norm_num
  have hneg : getApparentRotation [⟨0, 0, 0⟩, ⟨0, 3, 0⟩, ⟨1, 3, 0⟩, ⟨1, 0, 0⟩]
      = -(Real.pi / 2) := by
    rw [getApparentRotation]
    rw [hseg]
    norm_num
    rw [atan2]
    norm_num
  refine ⟨hseg, hneg, hpos, ?_⟩
  rw [hneg, hpos]
  intro h
  have hp := Real.pi_pos
  linarith

/-- C5 (amended): for every closed shape containing an edge of positive
squared length, getApparentRotation retains the edge of maximum squared
length with ties resolved first-seen in scan order, and returns atan2 of
the retained edge oriented so its first endpoint has the strictly smaller
x-coordinate, the endpoint order being REVERSED whenever the first
endpoint's x-coordinate is not smaller (including the equal-x tie); for
the unit square (0,0)-(1,0)-(1,1)-(0,1) the returned angle is 0. -/
theorem rotation_longest_edge_contract :
    (∀ (pts : List Vec3), (∃ s ∈ segmentsOf pts, 0 < len2 s.1 s.2) →
      retainedSeg pts ∈ segmentsOf pts ∧
      (∀ s ∈ segmentsOf pts,
        len2 s.1 s.2 ≤ len2 (retainedSeg pts).1 (retainedSeg pts).2) ∧
      (∃ (k : ℕ) (hk : k < (segmentsOf pts).length),
        (segmentsOf pts).get ⟨k, hk⟩ = retainedSeg pts ∧
        ∀ (j : ℕ) (hj : j < (segmentsOf pts).length), j < k →
          len2 ((segmentsOf pts).get ⟨j, hj⟩).1
              ((segmentsOf pts).get ⟨j, hj⟩).2
            < len2 (retainedSeg pts).1 (retainedSeg pts).2) ∧
      (getApparentRotation pts =
        if (retainedSeg pts).1.x < (retainedSeg pts).2.x then
          atan2 (((retainedSeg pts).2.y - (retainedSeg pts).1.y : ℚ) : ℝ)
            (((retainedSeg pts).2.x - (retainedSeg pts).1.x : ℚ) : ℝ)
        else
          atan2 (((retainedSeg pts).1.y - (retainedSeg pts).2.y : ℚ) : ℝ)
            (((retainedSeg pts).1.x - (retainedSeg pts).2.x : ℚ) : ℝ))) ∧
    getApparentRotation [⟨0, 0, 0⟩, ⟨1, 0, 0⟩, ⟨1, 1, 0⟩, ⟨0, 1, 0⟩] = 0 := by
  constructor
  · intro pts hpos
    obtain ⟨s0, hs0, hpos0⟩ := hpos
    rcases rotScan_invariant (segmentsOf pts) ((⟨0, 0, 0⟩, ⟨0, 0, 0⟩), 0)
      with ⟨_, hbd⟩ | ⟨k, hk, h1, h2, _, h4, h5⟩
    · exact absurd (hbd s0 hs0) (by simpa using hpos0)
    · have hret : retainedSeg pts = (segmentsOf pts).get ⟨k, hk⟩ := h1
      refine ⟨?_, ?_, ?_, ?_⟩
      · rw [hret]; exact List.get_mem _ _ hk
      · intro s hs
        have := h5 s hs
        rw [h2] at this
        rw [hret]
        exact this
      · refine ⟨k, hk, hret.symm, ?_⟩
        intro j hj hjk
        have := h4 j hj hjk
        rw [h2] at this
        rw [hret]
        exact this
      · by_cases hx : (retainedSeg pts).1.x < (retainedSeg pts).2.x
        · rw [getApparentRotation]
          simp only [hx, if_true]
        · rw [getApparentRotation]
          simp only [hx, if_false]
  · have hseg : retainedSeg [⟨0, 0, 0⟩, ⟨1, 0, 0⟩, ⟨1, 1, 0⟩, ⟨0, 1, 0⟩]
        = (⟨0, 0, 0⟩, ⟨1, 0, 0⟩) := by
      rw [retainedSeg,
        show segmentsOf [⟨0, 0, 0⟩, ⟨1, 0, 0⟩, ⟨1, 1, 0⟩, ⟨0, 1, 0⟩] =
          [(⟨0, 0, 0⟩, ⟨1, 0, 0⟩), (⟨1, 0, 0⟩, ⟨1, 1, 0⟩),
           (⟨1, 1, 0⟩, ⟨0, 1, 0⟩), (⟨0, 1, 0⟩, ⟨0, 0, 0⟩)] from rfl]
      norm_num [List.foldl_cons, List.foldl_nil, rotScanStep, len2]
    rw [getApparentRotation]
    rw [hseg]
    norm_num
    rw [atan2]
    norm_num

/-- Witness for the amended C5 at the unit square: the square has an edge
of positive squared length and the retained edge is one of its scanned
edges. -/
theorem rotation_longest_edge_contract_witness :
    (∃ s ∈ segmentsOf [⟨0, 0, 0⟩, ⟨1, 0, 0⟩, ⟨1, 1, 0⟩, ⟨0, 1, 0⟩],
        0 < len2 s.1 s.2) ∧
    retainedSeg [⟨0, 0, 0⟩, ⟨1, 0, 0⟩, ⟨1, 1, 0⟩, ⟨0, 1, 0⟩] ∈
      segmentsOf [⟨0, 0, 0⟩, ⟨1, 0, 0⟩, ⟨1, 1, 0⟩, ⟨0, 1, 0⟩] := by
  have hp : ∃ s ∈ segmentsOf [⟨0, 0, 0⟩, ⟨1, 0, 0⟩, ⟨1, 1, 0⟩, ⟨0, 1, 0⟩],
      0 < len2 s.1 s.2 := by
    refine ⟨((⟨0, 0, 0⟩ : Vec3), (⟨1, 0, 0⟩ : Vec3)), ?_, by norm_num [len2]⟩
    rw [show segmentsOf [⟨0, 0, 0⟩, ⟨1, 0, 0⟩, ⟨1, 1, 0⟩, ⟨0, 1, 0⟩] =
      [(⟨0, 0, 0⟩, ⟨1, 0, 0⟩), (⟨1, 0, 0⟩, ⟨1, 1, 0⟩),
       (⟨1, 1, 0⟩, ⟨0, 1, 0⟩), (⟨0, 1, 0⟩, ⟨0, 0, 0⟩)] from rfl]
    exact List.mem_cons_self _ _
  exact ⟨hp, (rotation_longest_edge_contract.1
    [⟨0, 0, 0⟩, ⟨1, 0, 0⟩, ⟨1, 1, 0⟩, ⟨0, 1, 0⟩] hp).1⟩

/-- C8: when no extrusion symbol is configured, push logs the warning and
returns a valid empty group node regardless of the input feature list; and
with a valid symbol but an empty feature list it returns a valid group
with no children — in neither case does it fail. -/
theorem push_missing_symbol_and_empty_input (flatten : Bool)
    (wallSkin : Option SkinParams) (features : List FeatureModel) :
    (push false flatten wallSkin features).warnedMissingSymbol = true ∧
    (push false flatten wallSkin features).groupChildren = [] ∧
    (push true flatten wallSkin []).warnedMissingSymbol = false ∧
    (push true flatten wallSkin []).groupChildren = [] :=
  ⟨rfl, rfl, rfl, rfl⟩
